import Mathlib

/-!
Shallow embedding of the authentication core of the bedframe web-services
framework (package bedframe.auth), together with proofs and refutations of
the specified properties of its affordance algebra, negotiation ranking,
token processing, and connector topology.

The embedded code lives in:
  src/bedframe/auth/_affordances/_core.py   (AffordanceSetABC and friends)
  src/bedframe/auth/_exc.py                 (exception classes)
  src/bedframe/auth/_authenticators.py      (Authenticator)
  src/bedframe/auth/_info.py                (RequestAuthInfo)
  src/bedframe/auth/_tokens.py              (TokenMap / FrozenTokenMap)
  src/bedframe/auth/_connectors.py          (Clerk / Scanner / Supplicant)
  src/bedframe/auth/_algorithms.py          (Algorithm / AlgorithmPhase)
  and the concrete algorithms under src/bedframe/auth/plain, digest, session.

The container types uset / frozenuset / usetset / frozenusetset and
frozendict come from the external spruce.collections library, which is not
part of this repository; their semantics are modelled from the spec
(universal-set algebra with a tagged Finite / Universal variant, products
that pair elements of the two operands, dict construction and equality).
-/

namespace Bedframe

/-- Modelled from the spec: a universalizable set (spruce.collections uset and
frozenuset), a tagged variant that is either a finite set of elements or the
universal set of all values of the element type. -/
inductive USet (α : Type) where
  | univ : USet α
  | fin (s : Finset α) : USet α
deriving DecidableEq

/-- Modelled from the spec: intersection of universalizable sets; a universal
operand is the identity of intersection. -/
def USet.inter {α : Type} [DecidableEq α] : USet α → USet α → USet α
  | .univ, t => t
  | .fin s, .univ => .fin s
  | .fin s, .fin t => .fin (s ∩ t)

/-- Modelled from the spec: union of universalizable sets; a universal operand
absorbs the union. -/
def USet.union {α : Type} [DecidableEq α] : USet α → USet α → USet α
  | .univ, _ => .univ
  | .fin _, .univ => .univ
  | .fin s, .fin t => .fin (s ∪ t)

/-- Modelled from the spec: Python truthiness of a universalizable set, true
unless the set is finite and empty. -/
def USet.nonemptyB {α : Type} : USet α → Bool
  | .univ => true
  | .fin s => s.card != 0

/-- Modelled from the spec: whether a universalizable set is finite. -/
def USet.isfiniteB {α : Type} : USet α → Bool
  | .univ => false
  | .fin _ => true

/-- Modelled from the spec: Python membership of an optional value in a
universalizable set; the universal set contains every value, None is not a
member of any finite set of proper values. -/
def USet.pymem {α : Type} [DecidableEq α] (x : Option α) : USet α → Bool
  | .univ => true
  | .fin s =>
    match x with
    | none => false
    | some v => decide (v ∈ s)

/-- Modelled from the spec: union-product of two universalizable sets of
provision-set flag values (spruce usetset.union_product as used by
AffordanceSetABC): the elements of the two operands are paired and their flag
sets are unioned pairwise; a universal operand yields a universal product
unless the other operand is empty and admits no pairs. -/
def USet.union_product : USet Nat → USet Nat → USet Nat
  | .univ, .univ => .univ
  | .univ, .fin t => if t = ∅ then .fin ∅ else .univ
  | .fin s, .univ => if s = ∅ then .fin ∅ else .univ
  | .fin s, .fin t => .fin (Finset.image₂ (fun a b => a ||| b) s t)

/-- Whether a universalizable set of provision-set flag values is closed under
pairwise union of its elements (true of the universal set, of the empty set,
and of every singleton). -/
def USet.union_closedB : USet Nat → Bool
  | .univ => true
  | .fin s => decide (∀ a ∈ s, ∀ b ∈ s, a ||| b ∈ s)

/-- General affordance set over realms, provision sets, and algorithms, from
AffordanceSetABC in src/bedframe/auth/_affordances/_core.py.  Realms are
strings; a provision set is embedded as its flag bitmask (the _flags integer
of a spruce NamedFlagSet); an algorithm is embedded as a numeric identity.
The frozen and unfrozen variants hold the same data, so a single structure
embeds both. -/
structure AffordanceSet where
  realms : USet String
  provisionsets : USet Nat
  algorithms : USet Nat
deriving DecidableEq

/-- AffordanceSetABC.__and__: realms and algorithms are intersected, the
provision-set component is the union-product of the two provision-set
components. -/
def AffordanceSet.and (a b : AffordanceSet) : AffordanceSet where
  realms := a.realms.inter b.realms
  provisionsets := a.provisionsets.union_product b.provisionsets
  algorithms := a.algorithms.inter b.algorithms

/-- AffordanceSet.__iand__: the in-place variant computes the same components
as AffordanceSetABC.__and__. -/
def AffordanceSet.iand (a b : AffordanceSet) : AffordanceSet where
  realms := a.realms.inter b.realms
  provisionsets := a.provisionsets.union_product b.provisionsets
  algorithms := a.algorithms.inter b.algorithms

/-- AffordanceSetABC.__or__: every component is unioned. -/
def AffordanceSet.or (a b : AffordanceSet) : AffordanceSet where
  realms := a.realms.union b.realms
  provisionsets := a.provisionsets.union b.provisionsets
  algorithms := a.algorithms.union b.algorithms

/-- AffordanceSetABC.max: the affordance set that matches all parameter
values. -/
def AffordanceSet.max : AffordanceSet := ⟨.univ, .univ, .univ⟩

/-- AffordanceSetABC.min: the affordance set that matches no parameter
values. -/
def AffordanceSet.min : AffordanceSet := ⟨.fin ∅, .fin ∅, .fin ∅⟩

/-- AffordanceSetABC._components_map with ordered=True: the ordered component
names paired with the Python truthiness of each component value. -/
def AffordanceSet.components_map (a : AffordanceSet) : List (String × Bool) :=
  [("realms", a.realms.nonemptyB),
   ("provisionsets", a.provisionsets.nonemptyB),
   ("algorithms", a.algorithms.nonemptyB)]

/-- The empty_components list computed by AffordanceSetABC.require_nonempty:
the names of the components that are not in the exceptions argument and whose
values are falsy. -/
def AffordanceSet.empty_components (a : AffordanceSet) (exceptions : List String) :
    List String :=
  ((a.components_map.filter
      (fun nv => !(exceptions.contains nv.1) && !nv.2)).map (fun nv => nv.1))

/-- Exception values that can arise from the embedded affordance-validation
code: the UnsatisfiableAffordances class of src/bedframe/auth/_exc.py carrying
the empty component names, and a Python AttributeError from a failed module
attribute lookup. -/
inductive AuthExc where
  | unsatisfiableAffordances (empty_components : List String)
  | attributeError (missing_attribute : String)
deriving DecidableEq

/-- Names of the exception classes defined at module level in
src/bedframe/auth/_exc.py. -/
def excModuleNames : List String :=
  ["Error", "BackendError", "InfiniteAffordances", "MissingTokens",
   "NoValidTokensScanned", "RequiredParamValueNotSupported",
   "RequiredParamValueSetNotSupported", "RequiredAlgorithmNotSupported",
   "RequiredProvisionSetNotSupported", "RequiredProvisionSetsNotSupported",
   "RequiredRealmNotSupported", "RequiredTokensNotSupported",
   "RequiredTokenSetsNotSupported", "RequiredInputNotSupported",
   "RequiredInputsNotSupported", "RequiredOutputNotSupported",
   "UnsatisfiableAffordances", "UnsuitableAgent", "UnsuitableClerk",
   "UnsuitableAuthenticator", "UnsuitableSupplicant", "UnsupportedTokens"]

/-- AffordanceSetABC.require_nonempty: computes the empty components and, if
any, evaluates the call-site expression raise
underscore-exc.UnastisfiableAffordances(self, empty_components, message) from
src/bedframe/auth/_affordances/_core.py line 121.  Under Python attribute
lookup, the named class is raised when the module defines that name and an
AttributeError is raised otherwise. -/
def AffordanceSet.require_nonempty (a : AffordanceSet) (exceptions : List String) :
    Except AuthExc Unit :=
  let empty_components := a.empty_components exceptions
  if empty_components.isEmpty then .ok ()
  else if excModuleNames.contains "UnastisfiableAffordances" then
    .error (.unsatisfiableAffordances empty_components)
  else
    .error (.attributeError "UnastisfiableAffordances")

theorem USet.inter_self_right {α : Type} [DecidableEq α] (a b : USet α) :
    (a.inter b).inter b = a.inter b := by
  cases a <;> cases b <;>
    simp [USet.inter, Finset.inter_assoc, Finset.inter_self]

theorem image₂_lor_self_right (s t : Finset Nat)
    (h : ∀ a ∈ t, ∀ b ∈ t, a ||| b ∈ t) :
    Finset.image₂ (fun a b => a ||| b) (Finset.image₂ (fun a b => a ||| b) s t) t
      = Finset.image₂ (fun a b => a ||| b) s t := by
  ext x
  simp only [Finset.mem_image₂]
  constructor
  · rintro ⟨y, ⟨a1, ha1, b1, hb1, rfl⟩, b2, hb2, rfl⟩
    exact ⟨a1, ha1, b1 ||| b2, h b1 hb1 b2 hb2, (Nat.lor_assoc a1 b1 b2).symm⟩
  · rintro ⟨a1, ha1, b1, hb1, rfl⟩
    exact ⟨a1 ||| b1, ⟨a1, ha1, b1, hb1, rfl⟩, b1, hb1,
           by rw [Nat.lor_assoc, Nat.or_self]⟩

theorem USet.union_product_self_right (a b : USet Nat)
    (h : b.union_closedB = true) :
    (a.union_product b).union_product b = a.union_product b := by
  cases a with
  | univ =>
    cases b with
    | univ => rfl
    | fin t =>
      by_cases ht : t = ∅
      · simp [USet.union_product, ht]
      · simp [USet.union_product, ht]
  | fin s =>
    cases b with
    | univ =>
      by_cases hs : s = ∅
      · simp [USet.union_product, hs]
      · simp [USet.union_product, hs]
    | fin t =>
      simp only [USet.union_closedB, decide_eq_true_eq] at h
      simp only [USet.union_product, USet.fin.injEq]
      exact image₂_lor_self_right s t h

/-- C1: for an affordance set with an empty component (here: empty realms,
universal provision sets, universal algorithms) and no exceptions,
require_nonempty raises AttributeError for the misspelled name
UnastisfiableAffordances rather than UnsatisfiableAffordances, although the
computed list of empty component names is exactly the one the claim says the
exception should carry; for an affordance set with all components non-empty it
returns normally. -/
theorem require_nonempty_attributeError_on_empty_component :
    (AffordanceSet.require_nonempty ⟨.fin ∅, .univ, .univ⟩ [] =
      .error (.attributeError "UnastisfiableAffordances")) ∧
    AffordanceSet.empty_components ⟨.fin ∅, .univ, .univ⟩ [] = ["realms"] ∧
    AffordanceSet.require_nonempty AffordanceSet.max [] = .ok () :=
  ⟨rfl, rfl, rfl⟩

/-- C3 counterexample: for the affordance sets with provision-set components
containing only the empty flag set and only the flag set 1, the provision-set
component of the intersection is the union-product, which differs from the
intersection of the two provision-set components. -/
theorem and_provisionsets_not_intersection :
    (AffordanceSet.and ⟨.univ, .fin {0}, .univ⟩ ⟨.univ, .fin {1}, .univ⟩).provisionsets
      ≠ (USet.fin {0}).inter (.fin {1}) := by
  decide

/-- C3 amended: A and B intersects the realms and algorithms components
independently, while the provision-set component of A and B is the
union-product of the two provision-set components (all pairwise flag-set
unions of one element from each side), not their intersection; the in-place
variant computes the same components. -/
theorem and_componentwise (a b : AffordanceSet) :
    (a.and b).realms = a.realms.inter b.realms ∧
    (a.and b).algorithms = a.algorithms.inter b.algorithms ∧
    (a.and b).provisionsets = a.provisionsets.union_product b.provisionsets ∧
    a.iand b = a.and b :=
  ⟨rfl, rfl, rfl, rfl⟩

/-- C7 counterexample: for A with provision-set component containing only the
empty flag set and B with provision-set component of the two flag sets 1 and
2, intersecting A and B with B a second time changes the result, so the
intersection is not idempotent in its second operand. -/
theorem and_not_idempotent_in_second_operand :
    AffordanceSet.and
        (AffordanceSet.and ⟨.univ, .fin {0}, .univ⟩ ⟨.univ, .fin {1, 2}, .univ⟩)
        ⟨.univ, .fin {1, 2}, .univ⟩
      ≠ AffordanceSet.and ⟨.univ, .fin {0}, .univ⟩ ⟨.univ, .fin {1, 2}, .univ⟩ := by
  decide

/-- C7 amended: the law holds whenever the provision-set component of the
second operand is closed under pairwise union of its flag sets (in particular
when it is empty, a singleton, or universal); the realms and algorithms
components always satisfy the law. -/
theorem and_idempotent_second_operand_of_union_closed (a b : AffordanceSet)
    (h : b.provisionsets.union_closedB = true) :
    (a.and b).and b = a.and b := by
  unfold AffordanceSet.and
  simp only [AffordanceSet.mk.injEq]
  exact ⟨USet.inter_self_right a.realms b.realms,
         USet.union_product_self_right a.provisionsets b.provisionsets h,
         USet.inter_self_right a.algorithms b.algorithms⟩

/-- Witness for the amended C7 theorem at a concrete input with a singleton
second provision-set component. -/
theorem and_idempotent_second_operand_witness :
    USet.union_closedB (.fin {3}) = true ∧
    AffordanceSet.and
        (AffordanceSet.and ⟨.univ, .fin {1}, .univ⟩ ⟨.univ, .fin {3}, .univ⟩)
        ⟨.univ, .fin {3}, .univ⟩
      = AffordanceSet.and ⟨.univ, .fin {1}, .univ⟩ ⟨.univ, .fin {3}, .univ⟩ :=
  ⟨by decide,
   and_idempotent_second_operand_of_union_closed
     ⟨.univ, .fin {1}, .univ⟩ ⟨.univ, .fin {3}, .univ⟩ (by decide)⟩

/-- Python dict over string keys, the token storage of TokenMap and
FrozenTokenMap in src/bedframe/auth/_tokens.py: an association list whose keys
are pairwise distinct when built by dict construction below. -/
abbrev PyDict := List (String × String)

/-- Python dict item assignment: replace the value in place when the key is
present, append the pair otherwise. -/
def dict_set (d : PyDict) (k v : String) : PyDict :=
  if d.any (fun p => decide (p.1 = k)) then
    d.map (fun p => if p.1 = k then (k, v) else p)
  else d ++ [(k, v)]

/-- Python dict construction from an iterable of key-value pairs; constructing
from an existing mapping iterates its items in order. -/
def pydict (items : List (String × String)) : PyDict :=
  items.foldl (fun d kv => dict_set d kv.1 kv.2) []

/-- Keys of a dict, in insertion order. -/
def dict_keys (d : PyDict) : List String := d.map (fun p => p.1)

/-- Python dict lookup, as an optional value. -/
def dict_get (d : PyDict) (k : String) : Option String :=
  (d.find? (fun p => decide (p.1 = k))).map (fun p => p.2)

/-- Mapping equality as used by the collections.Mapping equality that
FrozenTokenMap inherits: the two dicts associate the same optional value to
every key. -/
def mappingEq (a b : PyDict) : Prop := ∀ k, dict_get a k = dict_get b k

theorem dict_set_keys_of_mem (d : PyDict) (k v : String)
    (h : d.any (fun p => decide (p.1 = k)) = true) :
    dict_keys (dict_set d k v) = dict_keys d := by
  unfold dict_set dict_keys
  rw [if_pos h, List.map_map]
  refine List.map_congr_left (fun p _ => ?_)
  by_cases hp : p.1 = k
  · simp [Function.comp, hp]
  · simp [Function.comp, hp]

theorem dict_set_keys_of_not_mem (d : PyDict) (k v : String)
    (h : ¬ d.any (fun p => decide (p.1 = k)) = true) :
    dict_keys (dict_set d k v) = dict_keys d ++ [k] := by
  unfold dict_set dict_keys
  rw [if_neg h, List.map_append]
  rfl

theorem dict_set_keys_nodup (d : PyDict) (hd : (dict_keys d).Nodup)
    (k v : String) : (dict_keys (dict_set d k v)).Nodup := by
  by_cases h : d.any (fun p => decide (p.1 = k)) = true
  · rw [dict_set_keys_of_mem d k v h]
    exact hd
  · rw [dict_set_keys_of_not_mem d k v h]
    have hk : k ∉ dict_keys d := by
      intro hmem
      apply h
      rw [List.any_eq_true]
      obtain ⟨p, hp, hp1⟩ := List.mem_map.mp hmem
      exact ⟨p, hp, by simp [hp1]⟩
    rw [List.nodup_append]
    exact ⟨hd, List.nodup_singleton k,
           fun a ha hb => by
             rw [List.mem_singleton] at hb
             exact hk (hb ▸ ha)⟩

theorem pydict_keys_nodup (items : List (String × String)) :
    (dict_keys (pydict items)).Nodup := by
  suffices h : ∀ (l : List (String × String)) (acc : PyDict),
      (dict_keys acc).Nodup →
      (dict_keys (l.foldl (fun d kv => dict_set d kv.1 kv.2) acc)).Nodup by
    exact h items [] (by simp [dict_keys])
  intro l
  induction l with
  | nil => exact fun acc hacc => hacc
  | cons kv rest ih =>
    exact fun acc hacc => ih _ (dict_set_keys_nodup acc hacc kv.1 kv.2)

theorem pydict_eq_self_of_keys_nodup (d : PyDict)
    (hd : (dict_keys d).Nodup) : pydict d = d := by
  suffices h : ∀ (l acc : PyDict), (dict_keys (acc ++ l)).Nodup →
      l.foldl (fun d kv => dict_set d kv.1 kv.2) acc = acc ++ l by
    simpa using h d [] (by simpa using hd)
  intro l
  induction l with
  | nil => intro acc _; simp
  | cons kv rest ih =>
    intro acc hacc
    have hkeys : dict_keys (acc ++ kv :: rest)
        = dict_keys acc ++ kv.1 :: dict_keys rest := by
      unfold dict_keys
      rw [List.map_append, List.map_cons]
    have hknotin : kv.1 ∉ dict_keys acc := by
      rw [hkeys, List.nodup_append] at hacc
      exact fun hmem => hacc.2.2 hmem (List.mem_cons_self kv.1 _)
    have hk : ¬ acc.any (fun p => decide (p.1 = kv.1)) = true := by
      intro hany
      obtain ⟨p, hp, hp1⟩ := List.any_eq_true.mp hany
      exact hknotin (List.mem_map.mpr ⟨p, hp, by simpa using hp1⟩)
    have hstep : dict_set acc kv.1 kv.2 = acc ++ [kv] := by
      unfold dict_set
      rw [if_neg hk]
    rw [List.foldl_cons, hstep]
    have hres := ih (acc ++ [kv])
      (by
        have : (acc ++ [kv]) ++ rest = acc ++ kv :: rest := by simp
        rw [this]
        exact hacc)
    rw [hres]
    simp

/-- Immutable token map (FrozenTokenMap of src/bedframe/auth/_tokens.py): its
token storage is a frozendict built from the given tokens. -/
structure FrozenTokenMap where
  tokens : PyDict
deriving DecidableEq

/-- Mutable token map (TokenMap of src/bedframe/auth/_tokens.py). -/
structure TokenMap where
  tokens : PyDict
deriving DecidableEq

/-- FrozenTokenMap construction from a token mapping or item sequence:
TokenMapABC.__init__ stores the frozendict of the given tokens. -/
def frozenTokenMap (tokens : List (String × String)) : FrozenTokenMap :=
  ⟨pydict tokens⟩

/-- FrozenTokenMap.unfrozen: a TokenMap whose storage is a dict built from
this token storage. -/
def FrozenTokenMap.unfrozen (m : FrozenTokenMap) : TokenMap :=
  ⟨pydict m.tokens⟩

/-- TokenMap.frozen: a FrozenTokenMap whose storage is a frozendict built
from this token storage. -/
def TokenMap.frozen (m : TokenMap) : FrozenTokenMap :=
  ⟨pydict m.tokens⟩

/-- Mapping equality of frozen token maps, the embedded meaning of the
inherited collections.Mapping equality used by the double-equals operator. -/
def FrozenTokenMap.mappingEqual (a b : FrozenTokenMap) : Prop :=
  mappingEq a.tokens b.tokens

/-- C9: freezing the unfrozen copy of a frozen token map gives back a token
map structurally identical to, hence mapping-equal to, the original, for
every token item sequence. -/
theorem frozen_unfrozen_frozen_roundtrip (tokens : List (String × String)) :
    (frozenTokenMap tokens).unfrozen.frozen = frozenTokenMap tokens ∧
    FrozenTokenMap.mappingEqual ((frozenTokenMap tokens).unfrozen.frozen)
      (frozenTokenMap tokens) := by
  have h1 : pydict (pydict tokens) = pydict tokens :=
    pydict_eq_self_of_keys_nodup _ (pydict_keys_nodup tokens)
  have hstruct : (frozenTokenMap tokens).unfrozen.frozen = frozenTokenMap tokens := by
    show FrozenTokenMap.mk (pydict (pydict (pydict tokens))) = ⟨pydict tokens⟩
    rw [h1, h1]
  exact ⟨hstruct, fun k => by rw [hstruct]⟩

/-- Python sequence indexing with negative-index wraparound: a negative index
counts from the end of the list, and an index that is still out of range
raises IndexError, embedded as none (the try/except in AlgorithmPhase converts
IndexError to None). -/
def pyitem {α : Type} (l : List α) (i : Int) : Option α :=
  if i < 0 then
    if (l.length : Int) + i < 0 then none
    else l[((l.length : Int) + i).toNat]?
  else l[i.toNat]?

/-- AlgorithmPhase.prev_phase from src/bedframe/auth/_algorithms.py: the
element of the phase tuple at position index - 1, with IndexError giving
None. -/
def prev_phase {α : Type} (phases : List α) (index : Nat) : Option α :=
  pyitem phases ((index : Int) - 1)

/-- AlgorithmPhase.next_phase from src/bedframe/auth/_algorithms.py: the
element of the phase tuple at position index + 1, with IndexError giving
None. -/
def next_phase {α : Type} (phases : List α) (index : Nat) : Option α :=
  pyitem phases ((index : Int) + 1)

/-- C10: for a phase tuple with at least two phases, prev_phase of the phase
at index 0 is the phase at the last index (Python negative indexing wraps
index -1 to the end of the tuple), in particular it is not None, while
next_phase of the phase at the last index is None. -/
theorem prev_phase_at_zero_wraps_to_last {α : Type} (phases : List α)
    (h : 2 ≤ phases.length) :
    prev_phase phases 0 = phases[phases.length - 1]? ∧
    (prev_phase phases 0).isSome = true ∧
    next_phase phases (phases.length - 1) = none := by
  have hfirst : prev_phase phases 0 = phases[phases.length - 1]? := by
    unfold prev_phase pyitem
    rw [if_pos (by omega : ((0 : Nat) : Int) - 1 < 0),
        if_neg (by omega : ¬ (phases.length : Int) + (((0 : Nat) : Int) - 1) < 0)]
    congr 1
    omega
  refine ⟨hfirst, ?_, ?_⟩
  · rw [hfirst, List.getElem?_eq_getElem (by omega : phases.length - 1 < phases.length)]
    rfl
  · unfold next_phase pyitem
    rw [if_neg (by omega : ¬ ((phases.length - 1 : Nat) : Int) + 1 < 0)]
    refine List.getElem?_eq_none ?_
    omega

/-- Witness for the C10 theorem at a concrete two-phase tuple. -/
theorem prev_phase_at_zero_wraps_to_last_witness :
    2 ≤ ([10, 20] : List Nat).length ∧
    (prev_phase ([10, 20] : List Nat) 0 = ([10, 20] : List Nat)[([10, 20] : List Nat).length - 1]? ∧
     (prev_phase ([10, 20] : List Nat) 0).isSome = true ∧
     next_phase ([10, 20] : List Nat) (([10, 20] : List Nat).length - 1) = none) :=
  ⟨by decide, prev_phase_at_zero_wraps_to_last [10, 20] (by decide)⟩

/-- Token-flow endpoints named by the input_source and output_target
properties of connectors and algorithm phases; ending stands for the string
end. -/
inductive AuthEndpoint where
  | start
  | scanner
  | clerk
  | supplicant
  | algorithm
  | ending
deriving DecidableEq, Fintype

/-- The three connector roles of src/bedframe/auth/_connectors.py. -/
inductive ConnectorType where
  | clerk
  | scanner
  | supplicant
deriving DecidableEq, Fintype

/-- Values of the input_source property fixed on each connector class in
src/bedframe/auth/_connectors.py. -/
def ConnectorType.input_source : ConnectorType → AuthEndpoint
  | .clerk => .algorithm
  | .scanner => .clerk
  | .supplicant => .algorithm

/-- Values of the output_target property fixed on each connector class in
src/bedframe/auth/_connectors.py. -/
def ConnectorType.output_target : ConnectorType → AuthEndpoint
  | .clerk => .scanner
  | .scanner => .algorithm
  | .supplicant => .algorithm

/-- The twelve concrete algorithm phase classes of the repository: the three
phases of PlainAuth, of DigestAuth, of SessionLoginAuth, and of
SessionRecallAuth. -/
inductive PhaseType where
  | plainSolicitCreds
  | plainVerifyCreds
  | plainVerifyBackend
  | digestSolicitCreds
  | digestVerifyCreds
  | digestVerifyBackend
  | sessionLoginSolicit
  | sessionLoginVerifyStore
  | sessionLoginSendId
  | sessionRecallSolicitId
  | sessionRecallFetchInfo
  | sessionRecallVerifyInfo
deriving DecidableEq, Fintype

/-- Values of the input_source property fixed on each concrete phase class. -/
def PhaseType.input_source : PhaseType → AuthEndpoint
  | .plainSolicitCreds => .start
  | .plainVerifyCreds => .scanner
  | .plainVerifyBackend => .supplicant
  | .digestSolicitCreds => .start
  | .digestVerifyCreds => .scanner
  | .digestVerifyBackend => .supplicant
  | .sessionLoginSolicit => .start
  | .sessionLoginVerifyStore => .scanner
  | .sessionLoginSendId => .supplicant
  | .sessionRecallSolicitId => .start
  | .sessionRecallFetchInfo => .scanner
  | .sessionRecallVerifyInfo => .supplicant

/-- Values of the output_target property fixed on each concrete phase class. -/
def PhaseType.output_target : PhaseType → AuthEndpoint
  | .plainSolicitCreds => .clerk
  | .plainVerifyCreds => .supplicant
  | .plainVerifyBackend => .ending
  | .digestSolicitCreds => .clerk
  | .digestVerifyCreds => .supplicant
  | .digestVerifyBackend => .ending
  | .sessionLoginSolicit => .clerk
  | .sessionLoginVerifyStore => .supplicant
  | .sessionLoginSendId => .ending
  | .sessionRecallSolicitId => .clerk
  | .sessionRecallFetchInfo => .supplicant
  | .sessionRecallVerifyInfo => .ending

/-- C8 counterexample: the Clerk connector has input_source equal to
algorithm, which is outside the set of endpoints the claim allows for
input_source. -/
theorem clerk_input_source_outside_claimed_set :
    ConnectorType.input_source .clerk ∉
      [AuthEndpoint.start, .scanner, .clerk, .supplicant] := by
  decide

/-- C8 amended: every algorithm phase has input_source among start, scanner,
and supplicant and output_target among clerk, supplicant, and end, fixed per
type, within the sets the claim names; the connectors are also fixed per type
but use the endpoint algorithm on their phase-facing sides: Clerk goes from
algorithm to scanner, Scanner from clerk to algorithm, and Supplicant from
algorithm to algorithm. -/
theorem endpoints_fixed_per_type :
    (∀ p : PhaseType,
       p.input_source ∈ [AuthEndpoint.start, .scanner, .supplicant] ∧
       p.output_target ∈ [AuthEndpoint.clerk, .supplicant, .ending]) ∧
    ConnectorType.input_source .clerk = .algorithm ∧
    ConnectorType.output_target .clerk = .scanner ∧
    ConnectorType.input_source .scanner = .clerk ∧
    ConnectorType.output_target .scanner = .algorithm ∧
    ConnectorType.input_source .supplicant = .algorithm ∧
    ConnectorType.output_target .supplicant = .algorithm := by
  decide

/-- Per-request authentication record, RequestAuthInfo of
src/bedframe/auth/_info.py.  The provisions field holds the flag bitmask of a
ProvisionSet (the setter coerces None to the empty flag set, embedded as 0);
realm, algorithm, space, and the connector fields are optional references
embedded as optional identities; accepted is a three-valued flag. -/
structure RequestAuthInfo where
  tokens : PyDict
  space : Option Nat
  realm : Option String
  provisions : Nat
  algorithm : Option Nat
  clerk : Option Nat
  scanner : Option Nat
  supplicant : Option Nat
  accepted : Option Bool
deriving DecidableEq

/-- RequestAuthInfo.verified: whether accepted is non-null. -/
def RequestAuthInfo.verified (ai : RequestAuthInfo) : Bool :=
  ai.accepted.isSome

/-- Authenticator._process_tokens_updating_info from
src/bedframe/auth/_authenticators.py, with the processing step of the
connector abstracted as a function from the input tokens to the produced
RequestAuthInfo: after the step, an unset realm is filled from the prior
info, the provisions are intersected (flag-set and) with the prior
provisions, and a falsy algorithm is filled from the prior info. -/
def process_tokens_updating_info
    (process_tokens : PyDict → RequestAuthInfo)
    (auth_info : RequestAuthInfo) : RequestAuthInfo :=
  let new_auth_info := process_tokens auth_info.tokens
  let new_auth_info :=
    if new_auth_info.realm = none then
      { new_auth_info with realm := auth_info.realm }
    else new_auth_info
  let new_auth_info :=
    { new_auth_info with
        provisions := new_auth_info.provisions &&& auth_info.provisions }
  let new_auth_info :=
    if new_auth_info.algorithm = none then
      { new_auth_info with algorithm := auth_info.algorithm }
    else new_auth_info
  new_auth_info

/-- C6 counterexample: a later step that leaves provisions unset (the empty
flag set 0) does not keep the earlier provisions 1; the intersection of the
two yields the empty flag set. -/
theorem later_step_empty_provisions_not_kept :
    (process_tokens_updating_info
        (fun tokens =>
          ⟨tokens, none, none, 0, none, none, none, none, none⟩)
        ⟨[], none, some "example.net", 1, some 7, none, none, none, none⟩).provisions
      = 0 ∧ (0 : Nat) ≠ 1 := by
  exact ⟨rfl, by decide⟩

/-- C6 amended: between consecutive steps, the realm and the algorithm
produced by the earlier step are kept whenever the later step leaves them
unset (and are otherwise taken from the later step), while the provisions of
the later step are intersected with the earlier provisions rather than kept,
so a later step with unset provisions yields the empty provision set; tokens
and the acceptance flag come from the later step. -/
theorem step_fixup_componentwise
    (process_tokens : PyDict → RequestAuthInfo)
    (auth_info : RequestAuthInfo) :
    ((process_tokens auth_info.tokens).realm = none →
      (process_tokens_updating_info process_tokens auth_info).realm
        = auth_info.realm) ∧
    ((process_tokens auth_info.tokens).realm ≠ none →
      (process_tokens_updating_info process_tokens auth_info).realm
        = (process_tokens auth_info.tokens).realm) ∧
    ((process_tokens auth_info.tokens).algorithm = none →
      (process_tokens_updating_info process_tokens auth_info).algorithm
        = auth_info.algorithm) ∧
    ((process_tokens auth_info.tokens).algorithm ≠ none →
      (process_tokens_updating_info process_tokens auth_info).algorithm
        = (process_tokens auth_info.tokens).algorithm) ∧
    (process_tokens_updating_info process_tokens auth_info).provisions
      = (process_tokens auth_info.tokens).provisions &&& auth_info.provisions ∧
    (process_tokens_updating_info process_tokens auth_info).tokens
      = (process_tokens auth_info.tokens).tokens ∧
    (process_tokens_updating_info process_tokens auth_info).accepted
      = (process_tokens auth_info.tokens).accepted := by
  by_cases h1 : (process_tokens auth_info.tokens).realm = none <;>
    by_cases h2 : (process_tokens auth_info.tokens).algorithm = none <;>
      simp [process_tokens_updating_info, h1, h2]

/-- Witness for the amended C6 theorem at a concrete step that leaves realm
and algorithm unset and declares provisions 3 over earlier provisions 5. -/
theorem step_fixup_componentwise_witness :
    (process_tokens_updating_info
        (fun tokens => ⟨tokens, none, none, 3, none, none, none, none, none⟩)
        ⟨[], none, some "r", 5, some 9, none, none, none, none⟩).realm
      = some "r" ∧
    (process_tokens_updating_info
        (fun tokens => ⟨tokens, none, none, 3, none, none, none, none, none⟩)
        ⟨[], none, some "r", 5, some 9, none, none, none, none⟩).algorithm
      = some 9 ∧
    (process_tokens_updating_info
        (fun tokens => ⟨tokens, none, none, 3, none, none, none, none, none⟩)
        ⟨[], none, some "r", 5, some 9, none, none, none, none⟩).provisions
      = 3 &&& 5 :=
  ⟨(step_fixup_componentwise
      (fun tokens => ⟨tokens, none, none, 3, none, none, none, none, none⟩)
      ⟨[], none, some "r", 5, some 9, none, none, none, none⟩).1 rfl,
   (step_fixup_componentwise
      (fun tokens => ⟨tokens, none, none, 3, none, none, none, none, none⟩)
      ⟨[], none, some "r", 5, some 9, none, none, none, none⟩).2.2.1 rfl,
   (step_fixup_componentwise
      (fun tokens => ⟨tokens, none, none, 3, none, none, none, none, none⟩)
      ⟨[], none, some "r", 5, some 9, none, none, none, none⟩).2.2.2.2.1⟩

/-- The Unauthenticated exception family of src/bedframe/_exc.py; all three
classes are truthy Python objects. -/
inductive Unauthenticated where
  | base
  | authTokensNotGiven
  | authTokensNotAccepted
deriving DecidableEq

/-- The authenticator state read and written by has_auth and ensure_auth:
the current request authentication info held by the service (None when no
request is being handled), the location patterns of each registered space
with the regular-expression matcher of the HTTP collaborator, and the
registered connector and algorithm identities. -/
structure Authenticator where
  current_auth_info : Option RequestAuthInfo
  space_locs : Nat → List String
  loc_matches : String → String → Bool
  algorithms : List Nat
  clerks : List Nat
  scanners : List Nat
  supplicants : List Nat

/-- Python value returned by Authenticator.has_auth: the and-chain in the
source returns the first falsy operand, which can be None (a null
current_auth_info or a null accepted flag) as well as False, or the final
boolean. -/
inductive PyRet where
  | pynone
  | pybool (b : Bool)
deriving DecidableEq

/-- Authenticator.has_auth from src/bedframe/auth/_authenticators.py: builds
the affordance set from the arguments and evaluates the and-chain over the
current auth info, the spaces, and the membership of realm, provisions, and
algorithm in the affordances; it only reads the authenticator state, and the
returned state is unchanged. -/
def Authenticator.has_auth (auth : Authenticator) (loc : String)
    (realms : USet String) (provisionsets : USet Nat)
    (algorithms : USet Nat) : Authenticator × PyRet :=
  let affordances : AffordanceSet := ⟨realms, provisionsets, algorithms⟩
  let ret : PyRet :=
    match auth.current_auth_info with
    | none => .pynone
    | some cai =>
      match cai.accepted with
      | none => .pynone
      | some false => .pybool false
      | some true =>
        let space_ok : Bool :=
          match cai.space with
          | none => true
          | some sp =>
            (auth.space_locs sp).any
              (fun spaceloc => auth.loc_matches spaceloc loc)
        if !space_ok then .pybool false
        else if !(affordances.realms.pymem cai.realm) then .pybool false
        else if !(affordances.provisionsets.pymem (some cai.provisions)) then
          .pybool false
        else if !(affordances.algorithms.pymem cai.algorithm) then
          .pybool false
        else .pybool true
  (auth, ret)

/-- C5 counterexample: for a request whose fresh RequestAuthInfo has a null
accepted flag (the state of every request before authentication is
established), has_auth returns None, the first falsy operand of the Python
and-chain, which is not the value False the claim names. -/
theorem has_auth_returns_none_not_false :
    (Authenticator.has_auth
        ⟨some ⟨[], none, none, 0, none, none, none, none, none⟩,
         fun _ => [], fun _ _ => false, [], [], [], []⟩
        "/" .univ .univ .univ).2 = .pynone ∧
    PyRet.pynone ≠ .pybool false :=
  ⟨rfl, by decide⟩

/-- C5 amended: for every location and every combination of well-typed
realms, provisionsets, and algorithms arguments, has_auth mutates no state
(the returned authenticator, including the current auth info and the
registered connectors, spaces, and algorithms, is the argument itself) and it
raises nothing, the embedding being total; for an unauthenticated request
(no current auth info, or acceptance not established) it returns a falsy
value: None when the info or its accepted flag is null, False when the
acceptance was refused. -/
theorem has_auth_pure_and_falsy_when_unauthenticated
    (auth : Authenticator) (loc : String) (realms : USet String)
    (provisionsets : USet Nat) (algorithms : USet Nat) :
    (auth.has_auth loc realms provisionsets algorithms).1 = auth ∧
    ((match auth.current_auth_info with
      | none => True
      | some cai => cai.accepted ≠ some true) →
      (auth.has_auth loc realms provisionsets algorithms).2 = .pynone ∨
      (auth.has_auth loc realms provisionsets algorithms).2 = .pybool false) := by
  refine ⟨rfl, ?_⟩
  intro hun
  match hcai : auth.current_auth_info with
  | none => simp [Authenticator.has_auth, hcai]
  | some cai =>
    rw [hcai] at hun
    match hacc : cai.accepted with
    | none => simp [Authenticator.has_auth, hcai, hacc]
    | some false => simp [Authenticator.has_auth, hcai, hacc]
    | some true => exact absurd hacc hun

/-- Witness for the amended C5 theorem on a concrete authenticator with a
fresh, unaccepted current auth info. -/
theorem has_auth_pure_and_falsy_witness :
    (Authenticator.has_auth
        ⟨some ⟨[], none, none, 0, none, none, none, none, none⟩,
         fun _ => [], fun _ _ => false, [1], [2], [3], [4]⟩
        "/index" .univ .univ .univ).1
      = ⟨some ⟨[], none, none, 0, none, none, none, none, none⟩,
         fun _ => [], fun _ _ => false, [1], [2], [3], [4]⟩ ∧
    ((Authenticator.has_auth
        ⟨some ⟨[], none, none, 0, none, none, none, none, none⟩,
         fun _ => [], fun _ _ => false, [1], [2], [3], [4]⟩
        "/index" .univ .univ .univ).2 = .pynone ∨
     (Authenticator.has_auth
        ⟨some ⟨[], none, none, 0, none, none, none, none, none⟩,
         fun _ => [], fun _ _ => false, [1], [2], [3], [4]⟩
        "/index" .univ .univ .univ).2 = .pybool false) :=
  ⟨(has_auth_pure_and_falsy_when_unauthenticated _ "/index" .univ .univ .univ).1,
   (has_auth_pure_and_falsy_when_unauthenticated _ "/index" .univ .univ .univ).2
     (by decide)⟩

/-- Outcome of the tail of Authenticator.ensure_auth, after the negotiation
has chosen a phase and the connectors: the re-raise of a remembered
Unauthenticated exception with its remembered traceback, the
AuthTokensNotAccepted raise after a failed confirmation, the generic Error
raise of the unverified branch, or a normal return.  The traceback type is
abstract. -/
inductive EnsureOutcome (τ : Type) where
  | raisedUnauthenticated (e : Unauthenticated) (traceback : τ)
  | raisedAuthTokensNotAccepted
  | raisedError
  | returnedNormally
deriving DecidableEq

/-- The tail of Authenticator.ensure_auth from
src/bedframe/auth/_authenticators.py (lines 281 to 314): the phase-driven
token processing is abstracted as its outcome, either the produced
RequestAuthInfo or a raised Unauthenticated exception with the traceback
captured in the except clause; the clerk confirmation step of the success
path is abstracted as a function on the auth info.  The in-progress auth info
is stored as the current auth info in both cases; a remembered
Unauthenticated exception is then re-raised with the captured traceback;
otherwise the success path runs: if the info is verified, the clerk confirms
it (the stored info aliases the confirmed one) and a falsy accepted flag
raises AuthTokensNotAccepted, and if the info is not verified a generic Error
is raised. -/
def ensure_auth_after_processing {τ : Type} (auth : Authenticator)
    (auth_info : RequestAuthInfo)
    (phase_result : Except (Unauthenticated × τ) RequestAuthInfo)
    (confirm_auth_info : RequestAuthInfo → RequestAuthInfo) :
    Authenticator × EnsureOutcome τ :=
  match phase_result with
  | .error etb =>
    ({ auth with current_auth_info := some auth_info },
     .raisedUnauthenticated etb.1 etb.2)
  | .ok new_info =>
    let auth1 := { auth with current_auth_info := some new_info }
    if new_info.verified then
      let confirmed := confirm_auth_info new_info
      let auth2 := { auth1 with current_auth_info := some confirmed }
      if confirmed.accepted = some true then (auth2, .returnedNormally)
      else (auth2, .raisedAuthTokensNotAccepted)
    else (auth1, .raisedError)

/-- C4: whenever phase-driven token processing raises an Unauthenticated
exception, ensure_auth stores the in-progress RequestAuthInfo as the current
auth info and re-raises that same exception with its original traceback,
independently of the clerk confirmation behavior; in particular the
exception is never swallowed and the success path is never taken. -/
theorem ensure_auth_stores_info_and_reraises {τ : Type} (auth : Authenticator)
    (auth_info : RequestAuthInfo) (e : Unauthenticated) (traceback : τ)
    (confirm_auth_info : RequestAuthInfo → RequestAuthInfo) :
    ensure_auth_after_processing auth auth_info (.error (e, traceback))
        confirm_auth_info
      = ({ auth with current_auth_info := some auth_info },
         .raisedUnauthenticated e traceback) :=
  rfl

/-- Float value over the order used by the selection loop of
Authenticator._best_resolved_prospective_affordances_and_phase, where none
stands for float minus infinity and some n for the natural score n. -/
def fsLt : Option Nat → Option Nat → Bool
  | none, none => false
  | none, some _ => true
  | some _, none => false
  | some a, some b => decide (a < b)

/-- At-most comparison over the float order, the negation of the reversed
strict comparison. -/
def fsLe (a b : Option Nat) : Bool := !fsLt b a

/-- Python max over the float order, as computed by
max(best_phase_progress, index). -/
def fsMax (a b : Option Nat) : Option Nat := if fsLt a b then b else a

/-- Authenticator._provisions_score: the raw flag bitmask of the provision
set (the heuristic marked FIXME in the source). -/
def provisions_score (provisions : Nat) : Nat := provisions

/-- Resolved prospective affordance set as consumed by the scoring loop: its
afforded provision sets in iteration order, each embedded as its flag
bitmask. -/
structure ResolvedAffordances where
  provisionsets : List Nat
deriving DecidableEq

/-- Reference to an algorithm phase as consumed by the selection loop: its
index within its algorithm. -/
structure PhaseRef where
  index : Nat
deriving DecidableEq

/-- Authenticator._affordances_score: the maximum provision-set score among
the afforded provision sets, accumulated from float minus infinity. -/
def affordances_score (a : ResolvedAffordances) : Option Nat :=
  a.provisionsets.foldl
    (fun best provisions =>
      if fsLt best (some (provisions_score provisions)) then
        some (provisions_score provisions)
      else best)
    none

/-- State of the selection loop of
Authenticator._best_resolved_prospective_affordances_and_phase: the best
score, the best phase progress, and the selected pair. -/
structure SelState where
  best_affordances_score : Option Nat
  best_phase_progress : Option Nat
  best_affordances_and_phase : Option ResolvedAffordances × Option PhaseRef
deriving DecidableEq

/-- Inner loop body of the selection: scores one resolved affordance set of
the current candidate and selects it when it strictly improves the best
score. -/
def selInner (phase : PhaseRef) (st : SelState) (a : ResolvedAffordances) :
    SelState :=
  if fsLt st.best_affordances_score (affordances_score a) then
    { st with best_affordances_score := affordances_score a,
              best_affordances_and_phase := (some a, some phase) }
  else st

/-- Outer loop body of the selection over one (affordance set collection,
phase) candidate: a phase index strictly beyond the best progress resets the
selection, the best progress becomes the running maximum of the phase
indexes, and the candidate collection is scored only when its phase index
equals the updated best progress. -/
def selStep (st : SelState)
    (cand : List ResolvedAffordances × PhaseRef) : SelState :=
  let st1 :=
    if fsLt st.best_phase_progress (some cand.2.index) then
      { st with best_affordances_score := none,
                best_affordances_and_phase := (none, none) }
    else st
  let st2 :=
    { st1 with
      best_phase_progress := fsMax st1.best_phase_progress (some cand.2.index) }
  if some cand.2.index = st2.best_phase_progress then
    cand.1.foldl (selInner cand.2) st2
  else st2

/-- Authenticator._best_resolved_prospective_affordances_and_phase from
src/bedframe/auth/_authenticators.py, over the already resolved candidates:
runs the selection loop from minus-infinity score and progress and a null
best pair. -/
def best_resolved_affordances_and_phase
    (cands : List (List ResolvedAffordances × PhaseRef)) :
    Option ResolvedAffordances × Option PhaseRef :=
  (cands.foldl selStep ⟨none, none, (none, none)⟩).best_affordances_and_phase

/-- The individual resolved (affordance set, phase) pairs of a candidate
collection, in iteration order. -/
def flatCands (cands : List (List ResolvedAffordances × PhaseRef)) :
    List (ResolvedAffordances × PhaseRef) :=
  cands.flatMap (fun c => c.1.map (fun a => (a, c.2)))

/-- The maximum phase index over a candidate collection in the float order,
none for the empty collection. -/
def maxPhaseIndex (cands : List (List ResolvedAffordances × PhaseRef)) :
    Option Nat :=
  cands.foldl (fun m c => fsMax m (some c.2.index)) none

theorem fsLt_none_right (a : Option Nat) : fsLt a none = false := by
  cases a <;> rfl

theorem fsLt_irrefl (a : Option Nat) : fsLt a a = false := by
  cases a <;> simp [fsLt]

theorem fsLe_refl (a : Option Nat) : fsLe a a = true := by
  simp [fsLe, fsLt_irrefl]

theorem fsLe_none_left (a : Option Nat) : fsLe none a = true := by
  simp [fsLe, fsLt_none_right]

theorem fsLt_imp_fsLe (a b : Option Nat) (h : fsLt a b = true) :
    fsLe a b = true := by
  cases a <;> cases b <;> simp_all [fsLt, fsLe] <;> omega

theorem fsLe_fsLt_trans (a b c : Option Nat) (h1 : fsLe a b = true)
    (h2 : fsLt b c = true) : fsLt a c = true := by
  cases a <;> cases b <;> cases c <;> simp_all [fsLt, fsLe] <;> omega

theorem fsLe_trans (a b c : Option Nat) (h1 : fsLe a b = true)
    (h2 : fsLe b c = true) : fsLe a c = true := by
  cases a <;> cases b <;> cases c <;> simp_all [fsLt, fsLe] <;> omega

theorem fsLt_ne_none (a b : Option Nat) (h : fsLt a b = true) : b ≠ none := by
  cases b
  · rw [fsLt_none_right] at h
    exact absurd h (by simp)
  · simp

theorem fsLt_none_left_eq_false (b : Option Nat) (h : fsLt none b = false) :
    b = none := by
  cases b
  · rfl
  · simp [fsLt] at h

theorem fsMax_eq_right (a b : Option Nat) (h : fsLt a b = true) :
    fsMax a b = b := by
  unfold fsMax
  rw [if_pos h]

theorem fsMax_eq_left (a b : Option Nat) (h : fsLt a b = false) :
    fsMax a b = a := by
  unfold fsMax
  rw [h]
  rfl

/-- Relation between the selected pair, the best score, the best progress,
and the pairs seen so far: a null selection means every seen pair at the best
progress has minus-infinity score, and a proper selection is a seen pair at
the best progress whose score is the best score, maximal among the seen pairs
at the best progress. -/
def SelBestInv (score progress : Option Nat)
    (best : Option ResolvedAffordances × Option PhaseRef)
    (seen : List (ResolvedAffordances × PhaseRef)) : Prop :=
  match best with
  | (none, none) =>
      score = none ∧
      ∀ ap ∈ seen, some ap.2.index = progress → affordances_score ap.1 = none
  | (some a, some p) =>
      some p.index = progress ∧
      score = affordances_score a ∧
      (a, p) ∈ seen ∧
      (∀ ap ∈ seen, some ap.2.index = progress →
        fsLe (affordances_score ap.1) score = true) ∧
      score ≠ none
  | _ => False

/-- Loop invariant of the selection: every seen phase index is at most the
best progress, and the selected pair relates to the seen pairs as described
by SelBestInv. -/
def SelInv (st : SelState) (seen : List (ResolvedAffordances × PhaseRef)) :
    Prop :=
  (∀ ap ∈ seen, fsLe (some ap.2.index) st.best_phase_progress = true) ∧
  SelBestInv st.best_affordances_score st.best_phase_progress
    st.best_affordances_and_phase seen

theorem foldl_invariant {σ α : Type} (f : σ → α → σ)
    (Inv : σ → List α → Prop)
    (hstep : ∀ st pre c, Inv st pre → Inv (f st c) (pre ++ [c]))
    (init : σ) (h0 : Inv init []) (l : List α) :
    Inv (l.foldl f init) l := by
  suffices h : ∀ (l2 pre : List α) (st : σ), Inv st pre →
      Inv (l2.foldl f st) (pre ++ l2) by
    simpa using h l [] init h0
  intro l2
  induction l2 with
  | nil =>
    intro pre st hst
    simpa using hst
  | cons c rest ih =>
    intro pre st hst
    have hres := ih (pre ++ [c]) (f st c) (hstep st pre c hst)
    simpa using hres

theorem selInner_inv (p : PhaseRef) (st : SelState)
    (seen : List (ResolvedAffordances × PhaseRef))
    (hprog : st.best_phase_progress = some p.index)
    (hinv : SelInv st seen) (a : ResolvedAffordances) :
    (selInner p st a).best_phase_progress = some p.index ∧
    SelInv (selInner p st a) (seen ++ [(a, p)]) := by
  obtain ⟨hbound, hbest⟩ := hinv
  unfold selInner
  by_cases hlt : fsLt st.best_affordances_score (affordances_score a) = true
  · rw [if_pos hlt]
    refine ⟨hprog, ?_, ?_⟩
    · intro ap hap
      rcases List.mem_append.mp hap with h | h
      · exact hbound ap h
      · rw [List.mem_singleton] at h
        subst h
        rw [hprog]
        exact fsLe_refl _
    · show SelBestInv (affordances_score a) st.best_phase_progress
        (some a, some p) (seen ++ [(a, p)])
      refine ⟨hprog.symm, rfl, List.mem_append_right _ (List.mem_singleton.mpr rfl),
              ?_, ?_⟩
      · intro ap hap hidx
        rcases List.mem_append.mp hap with h | h
        · rcases hb : st.best_affordances_and_phase with ⟨oa, op⟩
          rw [hb] at hbest
          match oa, op with
          | none, none =>
            have hnone := hbest.2 ap h hidx
            rw [hnone]
            exact fsLe_none_left _
          | some a0, some p0 =>
            have hle := hbest.2.2.2.1 ap h hidx
            exact fsLt_imp_fsLe _ _ (fsLe_fsLt_trans _ _ _ hle hlt)
          | none, some p0 => exact absurd hbest (by simp [SelBestInv])
          | some a0, none => exact absurd hbest (by simp [SelBestInv])
        · rw [List.mem_singleton] at h
          subst h
          exact fsLe_refl _
      · intro hcontr
        exact absurd hcontr (fsLt_ne_none _ _ hlt)
  · rw [if_neg hlt]
    have hlt0 : fsLt st.best_affordances_score (affordances_score a) = false :=
      Bool.not_eq_true _ ▸ eq_false_of_ne_true hlt
    refine ⟨hprog, ?_, ?_⟩
    · intro ap hap
      rcases List.mem_append.mp hap with h | h
      · exact hbound ap h
      · rw [List.mem_singleton] at h
        subst h
        rw [hprog]
        exact fsLe_refl _
    · rcases hb : st.best_affordances_and_phase with ⟨oa, op⟩
      rw [hb] at hbest
      show SelBestInv st.best_affordances_score st.best_phase_progress
        (oa, op) (seen ++ [(a, p)])
      match oa, op with
      | none, none =>
        refine ⟨hbest.1, ?_⟩
        intro ap hap hidx
        rcases List.mem_append.mp hap with h | h
        · exact hbest.2 ap h hidx
        · rw [List.mem_singleton] at h
          subst h
          rw [hbest.1] at hlt0
          exact fsLt_none_left_eq_false _ hlt0
      | some a0, some p0 =>
        refine ⟨hbest.1, hbest.2.1, List.mem_append_left _ hbest.2.2.1, ?_,
                hbest.2.2.2.2⟩
        intro ap hap hidx
        rcases List.mem_append.mp hap with h | h
        · exact hbest.2.2.2.1 ap h hidx
        · rw [List.mem_singleton] at h
          subst h
          show (!fsLt st.best_affordances_score (affordances_score a)) = true
          rw [hlt0]
          rfl
      | none, some p0 => exact absurd hbest (by simp [SelBestInv])
      | some a0, none => exact absurd hbest (by simp [SelBestInv])

theorem selInner_foldl_inv (p : PhaseRef)
    (F : List (ResolvedAffordances × PhaseRef)) (s0 : SelState)
    (hp : s0.best_phase_progress = some p.index)
    (hc : SelInv s0 F) (l : List ResolvedAffordances) :
    (l.foldl (selInner p) s0).best_phase_progress = some p.index ∧
    SelInv (l.foldl (selInner p) s0) (F ++ l.map (fun a => (a, p))) := by
  have h := foldl_invariant (selInner p)
    (fun s S => s.best_phase_progress = some p.index ∧
      SelInv s (F ++ S.map (fun a => (a, p))))
    (fun s S a hsa => by
      have hstep := selInner_inv p s (F ++ S.map (fun a => (a, p))) hsa.1 hsa.2 a
      refine ⟨hstep.1, ?_⟩
      have heq : F ++ (S ++ [a]).map (fun a => (a, p))
          = (F ++ S.map (fun a => (a, p))) ++ [(a, p)] := by simp
      rw [heq]
      exact hstep.2)
    s0 ⟨hp, by simpa using hc⟩ l
  exact ⟨h.1, h.2⟩

theorem selStep_reset (st : SelState)
    (c : List ResolvedAffordances × PhaseRef)
    (h : fsLt st.best_phase_progress (some c.2.index) = true) :
    selStep st c
      = c.1.foldl (selInner c.2) ⟨none, some c.2.index, (none, none)⟩ := by
  unfold selStep
  rw [if_pos h]
  simp only
  rw [fsMax_eq_right _ _ h, if_pos rfl]

theorem selStep_keep (st : SelState)
    (c : List ResolvedAffordances × PhaseRef)
    (h1 : fsLt st.best_phase_progress (some c.2.index) = false)
    (h2 : st.best_phase_progress = some c.2.index) :
    selStep st c = c.1.foldl (selInner c.2) st := by
  obtain ⟨sc, pr, bst⟩ := st
  simp only at h1 h2
  subst h2
  simp [selStep, fsLt_irrefl, fsMax_eq_left _ _ (fsLt_irrefl _)]

theorem selStep_skip (st : SelState)
    (c : List ResolvedAffordances × PhaseRef)
    (h1 : fsLt st.best_phase_progress (some c.2.index) = false)
    (h2 : st.best_phase_progress ≠ some c.2.index) :
    selStep st c = st := by
  obtain ⟨sc, pr, bst⟩ := st
  simp only at h1 h2
  simp [selStep, h1, fsMax_eq_left _ _ h1, Ne.symm h2]

theorem selStep_outer_inv (st : SelState)
    (pre : List (List ResolvedAffordances × PhaseRef))
    (c : List ResolvedAffordances × PhaseRef)
    (hprog : st.best_phase_progress = maxPhaseIndex pre)
    (hcore : SelInv st (flatCands pre)) :
    (selStep st c).best_phase_progress = maxPhaseIndex (pre ++ [c]) ∧
    SelInv (selStep st c) (flatCands (pre ++ [c])) := by
  have hmax : maxPhaseIndex (pre ++ [c])
      = fsMax (maxPhaseIndex pre) (some c.2.index) := by
    unfold maxPhaseIndex
    rw [List.foldl_append]
    rfl
  have hflat : flatCands (pre ++ [c])
      = flatCands pre ++ c.1.map (fun a => (a, c.2)) := by
    unfold flatCands
    rw [List.flatMap_append]
    simp
  by_cases hgt : fsLt st.best_phase_progress (some c.2.index) = true
  · rw [selStep_reset st c hgt]
    have hres : SelInv ⟨none, some c.2.index, (none, none)⟩ (flatCands pre) := by
      constructor
      · intro ap hap
        exact fsLt_imp_fsLe _ _ (fsLe_fsLt_trans _ _ _ (hcore.1 ap hap) hgt)
      · show SelBestInv none (some c.2.index) (none, none) (flatCands pre)
        refine ⟨rfl, ?_⟩
        intro ap hap hidx
        exfalso
        have hle := hcore.1 ap hap
        simp only [fsLe, Bool.not_eq_true'] at hle
        rw [hidx, hgt] at hle
        exact absurd hle (by simp)
    have hfold := selInner_foldl_inv c.2 (flatCands pre)
      ⟨none, some c.2.index, (none, none)⟩ rfl hres c.1
    refine ⟨?_, ?_⟩
    · rw [hfold.1, hmax, ← hprog, fsMax_eq_right _ _ hgt]
    · rw [hflat]
      exact hfold.2
  · have hgt0 : fsLt st.best_phase_progress (some c.2.index) = false :=
      Bool.not_eq_true _ ▸ eq_false_of_ne_true hgt
    by_cases heq : st.best_phase_progress = some c.2.index
    · rw [selStep_keep st c hgt0 heq]
      have hfold := selInner_foldl_inv c.2 (flatCands pre) st heq hcore c.1
      refine ⟨?_, ?_⟩
      · rw [hfold.1, hmax, ← hprog, fsMax_eq_left _ _ hgt0, heq]
      · rw [hflat]
        exact hfold.2
    · rw [selStep_skip st c hgt0 heq]
      refine ⟨?_, ?_⟩
      · rw [hmax, ← hprog, fsMax_eq_left _ _ hgt0, hprog]
      · rw [hflat]
        obtain ⟨hbound, hbest⟩ := hcore
        constructor
        · intro ap hap
          rcases List.mem_append.mp hap with h | h
          · exact hbound ap h
          · obtain ⟨a, _, heqa⟩ := List.mem_map.mp h
            rw [← heqa]
            simp [fsLe, hgt0]
        · rcases hb : st.best_affordances_and_phase with ⟨oa, op⟩
          rw [hb] at hbest
          show SelBestInv st.best_affordances_score st.best_phase_progress
            (oa, op) (flatCands pre ++ c.1.map (fun a => (a, c.2)))
          match oa, op with
          | none, none =>
            refine ⟨hbest.1, ?_⟩
            intro ap hap hidx
            rcases List.mem_append.mp hap with h | h
            · exact hbest.2 ap h hidx
            · obtain ⟨a, _, heqa⟩ := List.mem_map.mp h
              exfalso
              apply heq
              rw [← hidx, ← heqa]
          | some a0, some p0 =>
            refine ⟨hbest.1, hbest.2.1, List.mem_append_left _ hbest.2.2.1,
                    ?_, hbest.2.2.2.2⟩
            intro ap hap hidx
            rcases List.mem_append.mp hap with h | h
            · exact hbest.2.2.2.1 ap h hidx
            · obtain ⟨a, _, heqa⟩ := List.mem_map.mp h
              exfalso
              apply heq
              rw [← hidx, ← heqa]
          | none, some p0 => exact absurd hbest (by simp [SelBestInv])
          | some a0, none => exact absurd hbest (by simp [SelBestInv])

/-- C2 counterexample: for the non-empty candidate collection holding one
phase of index 0 with one scoreable affordance set followed by one phase of
index 1 whose resolved affordance-set collection is empty, the selection
returns the null pair (None, None), although the collection is non-empty and
even contains a resolved (affordance set, phase) pair; under the claim the
result would be the best-ranked pair. -/
theorem best_resolved_none_despite_nonempty_candidates :
    best_resolved_affordances_and_phase
        [([(⟨[0]⟩ : ResolvedAffordances)], (⟨0⟩ : PhaseRef)),
         (([] : List ResolvedAffordances), (⟨1⟩ : PhaseRef))]
      = (none, none) ∧
    ((⟨[0]⟩ : ResolvedAffordances), (⟨0⟩ : PhaseRef)) ∈
      flatCands
        [([(⟨[0]⟩ : ResolvedAffordances)], (⟨0⟩ : PhaseRef)),
         (([] : List ResolvedAffordances), (⟨1⟩ : PhaseRef))] :=
  ⟨rfl, by decide⟩

/-- C2 amended: the selection uses the phase index as the primary key and
the affordance score (the maximum provision-set flag value, minus infinity
over an empty collection) as the secondary key, but the ranking only
considers candidates whose phase index equals the maximum phase index of the
whole collection: a selected pair is a resolved pair at the maximum index
whose score is greatest among the resolved pairs at the maximum index, and
the result is (None, None) exactly when no resolved pair at the maximum
index has a score above minus infinity; in particular this happens for the
empty collection, but also for non-empty collections whose maximal-index
candidates have empty or unscoreable affordance-set collections. -/
theorem best_resolved_selects_max_index_then_best_score
    (cands : List (List ResolvedAffordances × PhaseRef)) :
    match best_resolved_affordances_and_phase cands with
    | (some a, some p) =>
        (a, p) ∈ flatCands cands ∧
        some p.index = maxPhaseIndex cands ∧
        ∀ ap ∈ flatCands cands, some ap.2.index = maxPhaseIndex cands →
          fsLe (affordances_score ap.1) (affordances_score a) = true
    | (none, none) =>
        ∀ ap ∈ flatCands cands, some ap.2.index = maxPhaseIndex cands →
          affordances_score ap.1 = none
    | _ => False := by
  have h0 : (⟨none, none, (none, none)⟩ : SelState).best_phase_progress
        = maxPhaseIndex [] ∧
      SelInv ⟨none, none, (none, none)⟩ (flatCands []) := by
    refine ⟨rfl, ?_, ?_⟩
    · intro ap hap
      exact absurd hap (List.not_mem_nil ap)
    · show SelBestInv none none (none, none) []
      exact ⟨rfl, fun ap hap _ => absurd hap (List.not_mem_nil ap)⟩
  have h := foldl_invariant selStep
    (fun st pre => st.best_phase_progress = maxPhaseIndex pre ∧
      SelInv st (flatCands pre))
    (fun st pre c hst => selStep_outer_inv st pre c hst.1 hst.2)
    ⟨none, none, (none, none)⟩ h0 cands
  obtain ⟨hprog, hbound, hbest⟩ := h
  unfold best_resolved_affordances_and_phase
  rcases hb : (cands.foldl selStep ⟨none, none, (none, none)⟩).best_affordances_and_phase
    with ⟨oa, op⟩
  rw [hb] at hbest
  match oa, op with
  | none, none =>
    intro ap hap hidx
    exact hbest.2 ap hap (by rw [hprog]; exact hidx)
  | some a, some p =>
    refine ⟨hbest.2.2.1, by rw [← hprog]; exact hbest.1, ?_⟩
    intro ap hap hidx
    have hle := hbest.2.2.2.1 ap hap (by rw [hprog]; exact hidx)
    rw [hbest.2.1] at hle
    exact hle
  | none, some p => exact hbest
  | some a, none => exact hbest

/-- Witness for the amended C2 theorem at a concrete single-candidate
collection, whose selection is the pair of its only affordance set and its
only phase. -/
theorem best_resolved_selects_witness :
    (match best_resolved_affordances_and_phase
        [([(⟨[5]⟩ : ResolvedAffordances)], (⟨0⟩ : PhaseRef))] with
    | (some a, some p) =>
        (a, p) ∈ flatCands [([(⟨[5]⟩ : ResolvedAffordances)], (⟨0⟩ : PhaseRef))] ∧
        some p.index
          = maxPhaseIndex [([(⟨[5]⟩ : ResolvedAffordances)], (⟨0⟩ : PhaseRef))] ∧
        ∀ ap ∈ flatCands [([(⟨[5]⟩ : ResolvedAffordances)], (⟨0⟩ : PhaseRef))],
          some ap.2.index
              = maxPhaseIndex [([(⟨[5]⟩ : ResolvedAffordances)], (⟨0⟩ : PhaseRef))] →
            fsLe (affordances_score ap.1) (affordances_score a) = true
    | (none, none) =>
        ∀ ap ∈ flatCands [([(⟨[5]⟩ : ResolvedAffordances)], (⟨0⟩ : PhaseRef))],
          some ap.2.index
              = maxPhaseIndex [([(⟨[5]⟩ : ResolvedAffordances)], (⟨0⟩ : PhaseRef))] →
            affordances_score ap.1 = none
    | _ => False) :=
  best_resolved_selects_max_index_then_best_score
    [([(⟨[5]⟩ : ResolvedAffordances)], (⟨0⟩ : PhaseRef))]

end Bedframe
